import Mathlib

/-!
Verification of the influxdb query compiler (`src/query/compile.go`).

The file shallowly embeds the compiler: the influxql expression AST and the
plan-graph primitives (edges, nodes, `AuxiliaryFields`, `Plan`) live outside
the compiled package and are modelled from the specification; the compiler
functions (`compileExpr`, `compileFunction`, `linkAuxiliaryFields`,
`validateFields`, `Compile`, `Select`) are translated from the Go source.
Go's `(value, error)` returns become `Except String`.
-/

deriving instance DecidableEq for Except

namespace InfluxQuery

/-- Modelled from the spec: the expression tree consumed from the upstream
parser, polymorphic over variable reference, function call, binary operator
and literal (§6).  A variable reference carries its field name; the binary
operator token is kept as a string; all literal kinds collapse into one
constructor because the compiler only ever asks whether an operand is a
literal. -/
inductive Expr where
  | varRef (val : String)
  | call (name : String) (args : List Expr)
  | binary (op : String) (lhs : Expr) (rhs : Expr)
  | literal

/-- The Go type test `_, ok := expr.(influxql.Literal)`. -/
def Expr.isLit : Expr → Bool
  | .literal => true
  | _ => false

/-- Modelled from the spec: a data-source descriptor.  The Go source switches
over source kinds and aborts the process (`panic`) on anything but a named
measurement (§7 calls this a deliberate "not yet supported" boundary outside
the recoverable-error surface), so only measurements are modelled. -/
structure Measurement where
  name : String
deriving DecidableEq

/-- Modelled from the spec: an output edge of the plan graph, identified by
the subgraph that produces it.  `aux r` is the shared `AuxiliaryFields`
node's output edge for the variable reference `r`; `call name arg sources`
is the output edge of a `FunctionCall` node fed by a `Merge` of one
`IteratorCreator` per source, each reading `arg`; `binary op lhs rhs` is the
output edge of a `BinaryExpr` node whose two inputs are the edges `lhs` and
`rhs`. -/
inductive OutputEdge where
  | aux (ref : String)
  | call (name : String) (arg : String) (sources : List Measurement)
  | binary (op : String) (lhs : OutputEdge) (rhs : OutputEdge)
deriving DecidableEq

/-- Modelled from the spec: the shared multi-output `AuxiliaryFields` node,
holding the distinct variable references requested so far, in order of first
sight (deduplicated by field name, §3/§9). -/
structure AuxiliaryFields where
  refs : List String
deriving DecidableEq

/-- Modelled from the spec: `Iterator(ref)` returns the (possibly newly
created) output edge for `ref`, deduplicating so repeated mentions of the
same field share one underlying column read (§3). -/
def AuxiliaryFields.Iterator (a : AuxiliaryFields) (ref : String) :
    AuxiliaryFields × OutputEdge :=
  (if ref ∈ a.refs then a else ⟨a.refs ++ [ref]⟩, .aux ref)

/-- Modelled from the spec: how `linkAuxiliaryFields` wires the input of the
`AuxiliaryFields` node — either spliced after the single function call's
output edge (`Insert`), or fed by a fresh `Merge` of one bare
`IteratorCreator` per source (§4.2/§4.5). -/
inductive AuxSource where
  | spliced (callEdge : OutputEdge)
  | merged (sources : List Measurement)
deriving DecidableEq

/-- The compiled-statement state threaded through compilation, translated
from the Go struct `compiledStatement`.  `AuxiliarySource` records the
wiring decision of `linkAuxiliaryFields` (the Go code stores it as the
`Input`/`Output` edge fields of the `AuxiliaryFields` node). -/
structure compiledStatement where
  Sources : List Measurement
  FunctionCalls : List OutputEdge
  OnlySelectors : Bool
  TopBottomFunction : String
  AuxiliaryFields : Option AuxiliaryFields
  AuxiliarySource : Option AuxSource
  OutputEdges : List OutputEdge
deriving DecidableEq

/-- Modelled from the spec: the statement consumed from the parser — ordered
sources and ordered field expressions (§6).  Field aliases are never
consulted by the compiler and are omitted. -/
structure SelectStatement where
  Sources : List Measurement
  Fields : List Expr

/-- Modelled from the spec: the execution `Plan`, of which the compiler only
uses `AddTarget` to register terminal output edges (§1/§6). -/
structure Plan where
  targets : List OutputEdge
deriving DecidableEq

/-- Modelled from the spec: `AddTarget` registers one terminal output edge
with the plan. -/
def Plan.AddTarget (p : Plan) (e : OutputEdge) : Plan :=
  ⟨p.targets ++ [e]⟩

/-- Translated from `newCompiler`: fresh state with `OnlySelectors` true and
everything else empty.  (The Go function takes the statement only to
preallocate the `OutputEdges` capacity.) -/
def newCompiler : compiledStatement :=
  { Sources := [], FunctionCalls := [], OnlySelectors := true,
    TopBottomFunction := "", AuxiliaryFields := none, AuxiliarySource := none,
    OutputEdges := [] }

/-- The Go test `arg0, ok := expr.Args[0].(*influxql.Call); ok && arg0.Name
== "distinct"`. -/
def isDistinctCall : Expr → Bool
  | .call n _ => n == "distinct"
  | _ => false

/-- The `case "max", "min", "first", "last", "percentile", "sample"` list of
the metadata switch in `compileFunction`. -/
def selectorNames : List String :=
  ["max", "min", "first", "last", "percentile", "sample"]

/-- Translated from `compileFunction`: arity check, `count(distinct(...))`
rejection, field-argument check, then construction of the per-source
merge feeding a `FunctionCall` node and the metadata update
(`TopBottomFunction`, `OnlySelectors`, `FunctionCalls`). -/
def compileFunction (c : compiledStatement) (name : String)
    (args : List Expr) : Except String (compiledStatement × OutputEdge) :=
  match args with
  | [arg0] =>
    if name == "count" && isDistinctCall arg0 then
      .error "unimplemented"
    else
      match arg0 with
      | .varRef val =>
        let out : OutputEdge := .call name val c.Sources
        .ok ({ c with
          FunctionCalls := c.FunctionCalls ++ [out],
          TopBottomFunction :=
            if name == "top" || name == "bottom" then
              if c.TopBottomFunction == "" then name else c.TopBottomFunction
            else c.TopBottomFunction,
          OnlySelectors :=
            if name == "top" || name == "bottom" then c.OnlySelectors
            else if name ∈ selectorNames then c.OnlySelectors
            else false }, out)
      | _ => .error ("expected field argument in " ++ name ++ "()")
  | _ =>
    .error ("invalid number of arguments for " ++ name ++ ", expected 1, got "
      ++ toString args.length)

/-- The `case "count", "min", "max", "sum", "first", "last", "mean"` dispatch
list of `compileExpr`. -/
def dispatchNames : List String :=
  ["count", "min", "max", "sum", "first", "last", "mean"]

/-- Translated from `compileExpr`: variable references go to
`AuxiliaryFields.Iterator` (instantiating the shared node on first use),
calls with a supported name go to `compileFunction`, binary expressions with
a literal operand on either side fall through to "unimplemented", other
binary expressions compile both sides and wire them into a `BinaryExpr`
node, and every other shape is "unimplemented". -/
def compileExpr (c : compiledStatement) :
    Expr → Except String (compiledStatement × OutputEdge)
  | .varRef val =>
    let a := c.AuxiliaryFields.getD ⟨[]⟩
    let r := a.Iterator val
    .ok ({ c with AuxiliaryFields := some r.1 }, r.2)
  | .call name args =>
    if name ∈ dispatchNames then
      compileFunction c name args
    else
      .error "unimplemented"
  | .binary op lhs rhs =>
    if lhs.isLit || rhs.isLit then
      .error "unimplemented"
    else
      match compileExpr c lhs with
      | .error e => .error e
      | .ok (c1, lhsOut) =>
        match compileExpr c1 rhs with
        | .error e => .error e
        | .ok (c2, rhsOut) =>
          .ok (c2, .binary op lhsOut rhsOut)
  | .literal => .error "unimplemented"

/-- The Go test `ref, ok := f.Expr.(*influxql.VarRef); ok && ref.Val ==
"time"` used by `Compile` to skip a bare time reference. -/
def isTimeRef : Expr → Bool
  | .varRef v => v == "time"
  | _ => false

/-- The per-field loop of `Compile`: skip bare `time` references, otherwise
compile the field expression and append its output edge to `OutputEdges`. -/
def compileFields (c : compiledStatement) :
    List Expr → Except String compiledStatement
  | [] => .ok c
  | f :: rest =>
    if isTimeRef f then
      compileFields c rest
    else
      match compileExpr c f with
      | .error e => .error e
      | .ok (c1, out) =>
        compileFields { c1 with OutputEdges := c1.OutputEdges ++ [out] } rest

/-- Translated from `linkAuxiliaryFields`: with no auxiliary fields, require
at least one function call; with auxiliary fields, reject non-selector
functions, reject more than one function call, then either splice the
auxiliary node after the single call's output edge or feed it from a fresh
per-source merge. -/
def linkAuxiliaryFields (c : compiledStatement) :
    Except String compiledStatement :=
  match c.AuxiliaryFields with
  | none =>
    if c.FunctionCalls.length == 0 then
      .error "at least 1 non-time field must be queried"
    else
      .ok c
  | some _ =>
    if !c.OnlySelectors then
      .error "mixing aggregate and non-aggregate queries is not supported"
    else if c.FunctionCalls.length > 1 then
      .error "mixing multiple selector functions with tags or fields is not supported"
    else
      match c.FunctionCalls with
      | [callOut] => .ok { c with AuxiliarySource := some (.spliced callOut) }
      | _ => .ok { c with AuxiliarySource := some (.merged c.Sources) }

/-- Translated from `validateFields`: reject multiple function calls when a
top/bottom function was recorded. -/
def validateFields (c : compiledStatement) : Except String Unit :=
  if c.FunctionCalls.length > 1 && c.TopBottomFunction != "" then
    .error ("selector function " ++ c.TopBottomFunction
      ++ "() cannot be combined with other functions")
  else
    .ok ()

/-- Translated from `Compile`: copy the sources, compile each field in order
(skipping bare `time`), link the auxiliary fields, validate, and return the
compiled statement. -/
def Compile (stmt : SelectStatement) : Except String compiledStatement :=
  match compileFields { newCompiler with Sources := stmt.Sources } stmt.Fields with
  | .error e => .error e
  | .ok c =>
    match linkAuxiliaryFields c with
    | .error e => .error e
    | .ok c =>
      match validateFields c with
      | .error e => .error e
      | .ok _ => .ok c

/-- Translated from `Select`: register every retained output edge with the
plan in order and return the same list; the error result is always nil
(`.ok`). -/
def Select (c : compiledStatement) (p : Plan) :
    Plan × Except String (List OutputEdge) :=
  (c.OutputEdges.foldl Plan.AddTarget p, .ok c.OutputEdges)

/-- `true` when the result is `.ok`: the compilation stage succeeded. -/
def exceptOk {α : Type} : Except String α → Bool
  | .ok _ => true
  | .error _ => false

/-- A function call whose name the dispatcher routes to `compileFunction`
and whose metadata switch clears `OnlySelectors`: a true aggregate. -/
def hasAggregate : Expr → Bool
  | .call name _ => name ∈ (["count", "sum", "mean"] : List String)
  | .binary _ lhs rhs => hasAggregate lhs || hasAggregate rhs
  | _ => false

/-- Whether successfully compiling this expression touches the shared
`AuxiliaryFields` node (a variable reference somewhere outside function
arguments). -/
def referencesVar : Expr → Bool
  | .varRef _ => true
  | .binary _ lhs rhs => referencesVar lhs || referencesVar rhs
  | _ => false

/-- The number of `FunctionCall` nodes a successful compilation of this
expression creates. -/
def numCalls : Expr → Nat
  | .call _ _ => 1
  | .binary _ lhs rhs => numCalls lhs + numCalls rhs
  | _ => 0

/-- State characterization of a successful `compileFunction`: sources, output
edges and the auxiliary-field set are untouched, the new output edge is
appended to `FunctionCalls`, `OnlySelectors` survives exactly when the name
is top/bottom or in the selector list, and `TopBottomFunction` records the
first top/bottom name seen. -/
theorem compileFunction_ok {c : compiledStatement} {name : String}
    {args : List Expr} {c' : compiledStatement} {out : OutputEdge}
    (h : compileFunction c name args = .ok (c', out)) :
    c'.Sources = c.Sources ∧ c'.OutputEdges = c.OutputEdges ∧
    c'.AuxiliaryFields = c.AuxiliaryFields ∧
    c'.AuxiliarySource = c.AuxiliarySource ∧
    c'.FunctionCalls = c.FunctionCalls ++ [out] ∧
    c'.OnlySelectors = (c.OnlySelectors &&
      (name == "top" || name == "bottom" || decide (name ∈ selectorNames))) ∧
    c'.TopBottomFunction = (if (name == "top" || name == "bottom") &&
      c.TopBottomFunction == "" then name else c.TopBottomFunction) := by
  unfold compileFunction at h
  split at h
  case h_2 => exact absurd h (by simp)
  split at h
  · exact absurd h (by simp)
  split at h
  case h_2 => exact absurd h (by simp)
  simp only [Except.ok.injEq, Prod.mk.injEq] at h
  obtain ⟨h1, h2⟩ := h
  subst h1
  refine ⟨rfl, rfl, rfl, rfl, by rw [h2], ?_, ?_⟩
  · by_cases htb : (name == "top" || name == "bottom") = true
    · simp [htb]
    · simp only [Bool.not_eq_true] at htb
      by_cases hsel : name ∈ selectorNames
      · simp [htb, hsel]
      · simp [htb, hsel]
  · by_cases htb : (name == "top" || name == "bottom") = true
    · by_cases hemp : (c.TopBottomFunction == "") = true
      · simp [htb, hemp]
      · simp only [Bool.not_eq_true] at hemp
        simp [htb, hemp]
    · simp only [Bool.not_eq_true] at htb
      simp [htb]

/-- State characterization of a successful `compileExpr`: sources, output
edges, auxiliary wiring and the top/bottom record are untouched;
`OnlySelectors` survives exactly when the expression holds no true
aggregate; the auxiliary-field set becomes inhabited exactly when it was or
the expression references a variable; one `FunctionCall` node is appended
per function call in the expression. -/
theorem compileExpr_ok : ∀ {e : Expr} {c c' : compiledStatement}
    {out : OutputEdge}, compileExpr c e = .ok (c', out) →
    c'.Sources = c.Sources ∧ c'.OutputEdges = c.OutputEdges ∧
    c'.AuxiliarySource = c.AuxiliarySource ∧
    c'.TopBottomFunction = c.TopBottomFunction ∧
    c'.OnlySelectors = (c.OnlySelectors && !hasAggregate e) ∧
    c'.AuxiliaryFields.isSome = (c.AuxiliaryFields.isSome || referencesVar e) ∧
    c'.FunctionCalls.length = c.FunctionCalls.length + numCalls e
  | .varRef val, c, c', out, h => by
    unfold compileExpr at h
    simp only [Except.ok.injEq, Prod.mk.injEq] at h
    obtain ⟨h1, _⟩ := h
    subst h1
    simp [hasAggregate, referencesVar, numCalls, AuxiliaryFields.Iterator]
  | .call name args, c, c', out, h => by
    unfold compileExpr at h
    split at h
    case isFalse => exact absurd h (by simp)
    case isTrue hmem =>
      obtain ⟨hs, ho, ha, hx, hf, hsel, htb⟩ := compileFunction_ok h
      simp only [dispatchNames, List.mem_cons, List.mem_singleton] at hmem
      rcases hmem with rfl | rfl | rfl | rfl | rfl | rfl | rfl | hmem
      all_goals first
        | (refine ⟨hs, ho, hx, ?_, ?_, ?_, ?_⟩
           · rw [htb]; simp
           · rw [hsel]; simp [selectorNames, hasAggregate]
           · rw [ha]; simp [referencesVar]
           · rw [hf]; simp [numCalls])
        | simp at hmem
  | .binary op lhs rhs, c, c', out, h => by
    unfold compileExpr at h
    split at h
    case isTrue => exact absurd h (by simp)
    case isFalse =>
      split at h
      case h_1 => exact absurd h (by simp)
      case h_2 c1 lhsOut heq1 =>
        split at h
        case h_1 => exact absurd h (by simp)
        case h_2 c2 rhsOut heq2 =>
          simp only [Except.ok.injEq, Prod.mk.injEq] at h
          obtain ⟨h1, _⟩ := h
          subst h1
          obtain ⟨s1, o1, x1, t1, p1, a1, f1⟩ := compileExpr_ok heq1
          obtain ⟨s2, o2, x2, t2, p2, a2, f2⟩ := compileExpr_ok heq2
          refine ⟨s2.trans s1, o2.trans o1, x2.trans x1, t2.trans t1, ?_, ?_, ?_⟩
          · rw [p2, p1]
            simp [hasAggregate, Bool.and_assoc]
          · rw [a2, a1]
            simp [referencesVar, Bool.or_assoc]
          · rw [f2, f1]
            simp [numCalls]
            omega
  | .literal, c, c', out, h => by
    unfold compileExpr at h
    exact absurd h (by simp)

/-- A field that passes the bare-`time` test is exactly the expression
`varRef "time"`. -/
theorem eq_time_of_isTimeRef {f : Expr} (h : isTimeRef f = true) :
    f = .varRef "time" := by
  cases f <;> simp [isTimeRef] at h ⊢
  exact h

/-- State characterization of a successful run of the per-field loop of
`Compile`: bare `time` fields are skipped, every other field adds exactly
one output edge, and the metadata evolves as in `compileExpr_ok`, folded
over the field list. -/
theorem compileFields_ok : ∀ {fields : List Expr} {c c' : compiledStatement},
    compileFields c fields = .ok c' →
    c'.Sources = c.Sources ∧ c'.AuxiliarySource = c.AuxiliarySource ∧
    c'.TopBottomFunction = c.TopBottomFunction ∧
    c'.OnlySelectors = (c.OnlySelectors &&
      fields.all (fun f => !hasAggregate f)) ∧
    c'.AuxiliaryFields.isSome = (c.AuxiliaryFields.isSome ||
      fields.any (fun f => !isTimeRef f && referencesVar f)) ∧
    c'.FunctionCalls.length = c.FunctionCalls.length +
      (fields.map numCalls).sum ∧
    c'.OutputEdges.length = c.OutputEdges.length +
      (fields.filter (fun f => !isTimeRef f)).length
  | [], c, c', h => by
    unfold compileFields at h
    simp only [Except.ok.injEq] at h
    subst h
    simp
  | f :: rest, c, c', h => by
    unfold compileFields at h
    split at h
    case isTrue ht =>
      obtain ⟨s, x, t, p, a, fc, oe⟩ := compileFields_ok h
      have hf := eq_time_of_isTimeRef ht
      subst hf
      refine ⟨s, x, t, ?_, ?_, ?_, ?_⟩
      · rw [p]; simp [hasAggregate]
      · rw [a]; simp [isTimeRef]
      · rw [fc]; simp [numCalls]
      · rw [oe]; simp [isTimeRef]
    case isFalse ht =>
      split at h
      case h_1 => exact absurd h (by simp)
      case h_2 c1 out heq =>
        obtain ⟨s1, o1, x1, t1, p1, a1, f1⟩ := compileExpr_ok heq
        obtain ⟨s, x, t, p, a, fc, oe⟩ := compileFields_ok h
        dsimp only at s x t p a fc oe
        simp only [Bool.not_eq_true] at ht
        refine ⟨s.trans s1, x.trans x1, t.trans t1, ?_, ?_, ?_, ?_⟩
        · rw [p]
          simp only [p1, List.all_cons, Bool.and_assoc]
        · rw [a]
          simp only [a1, List.any_cons, ht, Bool.not_false, Bool.true_and,
            Bool.or_assoc]
        · rw [fc]
          simp [f1, o1]
          omega
        · rw [oe]
          simp [ht, o1]
          omega
  termination_by fields => fields

/-- A successful `linkAuxiliaryFields` changes nothing but the recorded
auxiliary-input wiring. -/
theorem linkAuxiliaryFields_ok {c c' : compiledStatement}
    (h : linkAuxiliaryFields c = .ok c') :
    c'.Sources = c.Sources ∧ c'.FunctionCalls = c.FunctionCalls ∧
    c'.OnlySelectors = c.OnlySelectors ∧
    c'.TopBottomFunction = c.TopBottomFunction ∧
    c'.AuxiliaryFields = c.AuxiliaryFields ∧
    c'.OutputEdges = c.OutputEdges := by
  unfold linkAuxiliaryFields at h
  split at h
  · split at h
    · exact absurd h (by simp)
    · simp only [Except.ok.injEq] at h
      subst h
      exact ⟨rfl, rfl, rfl, rfl, rfl, rfl⟩
  · split at h
    · exact absurd h (by simp)
    split at h
    · exact absurd h (by simp)
    split at h
    all_goals simp only [Except.ok.injEq] at h
    all_goals subst h
    all_goals exact ⟨rfl, rfl, rfl, rfl, rfl, rfl⟩

/-- With auxiliary fields present and `OnlySelectors` cleared,
`linkAuxiliaryFields` reports the aggregate/non-aggregate mixing error. -/
theorem linkAuxiliaryFields_mixing {c : compiledStatement}
    {a : AuxiliaryFields} (ha : c.AuxiliaryFields = some a)
    (hos : c.OnlySelectors = false) :
    linkAuxiliaryFields c =
      .error "mixing aggregate and non-aggregate queries is not supported" := by
  unfold linkAuxiliaryFields
  rw [ha]
  simp [hos]

/-- With auxiliary fields present, `OnlySelectors` intact and more than one
function call, `linkAuxiliaryFields` reports the multiple-selector error. -/
theorem linkAuxiliaryFields_multi {c : compiledStatement}
    {a : AuxiliaryFields} (ha : c.AuxiliaryFields = some a)
    (hos : c.OnlySelectors = true) (hn : 1 < c.FunctionCalls.length) :
    linkAuxiliaryFields c =
      .error "mixing multiple selector functions with tags or fields is not supported" := by
  unfold linkAuxiliaryFields
  rw [ha]
  simp [hos, hn]

/-- With no auxiliary fields and no function calls, `linkAuxiliaryFields`
demands a non-time field. -/
theorem linkAuxiliaryFields_empty {c : compiledStatement}
    (ha : c.AuxiliaryFields = none) (hf : c.FunctionCalls = []) :
    linkAuxiliaryFields c =
      .error "at least 1 non-time field must be queried" := by
  unfold linkAuxiliaryFields
  rw [ha]
  simp [hf]

/-- With no auxiliary fields and at least one function call,
`linkAuxiliaryFields` succeeds without touching the state. -/
theorem linkAuxiliaryFields_noAux {c : compiledStatement}
    (ha : c.AuxiliaryFields = none) (hf : c.FunctionCalls ≠ []) :
    linkAuxiliaryFields c = .ok c := by
  unfold linkAuxiliaryFields
  rw [ha]
  simp [hf]

/-- With no recorded top/bottom function, `validateFields` accepts. -/
theorem validateFields_noTopBottom {c : compiledStatement}
    (ht : c.TopBottomFunction = "") : validateFields c = .ok () := by
  unfold validateFields
  simp [ht]

/-- `Compile` unfolded past a successful per-field loop. -/
theorem Compile_eq {stmt : SelectStatement} {c : compiledStatement}
    (h : compileFields { newCompiler with Sources := stmt.Sources }
      stmt.Fields = .ok c) :
    Compile stmt = (match linkAuxiliaryFields c with
      | .error e => .error e
      | .ok c =>
        match validateFields c with
        | .error e => .error e
        | .ok _ => .ok c) := by
  unfold Compile
  rw [h]

/-- A stage result passes `exceptOk` exactly when it is an `.ok`. -/
theorem exceptOk_iff {α : Type} {x : Except String α} :
    exceptOk x = true ↔ ∃ a, x = .ok a := by
  cases x <;> simp [exceptOk]

/-- C1: for every statement in which at least one non-time field is a plain
variable reference (so an AuxiliaryFields set exists) and at least one
compiled function call is a true aggregate (count, sum, or mean, so
OnlySelectors is false), Compile fails with the error "mixing aggregate and
non-aggregate queries is not supported".  The per-field compilation stage
succeeding is the precondition under which all the named calls have in fact
been compiled. -/
theorem mixing_aggregate_and_raw_field_errors (stmt : SelectStatement)
    (hok : exceptOk (compileFields { newCompiler with Sources := stmt.Sources }
      stmt.Fields) = true)
    (hraw : ∃ f ∈ stmt.Fields, ∃ v, f = Expr.varRef v ∧ v ≠ "time")
    (hagg : ∃ g ∈ stmt.Fields, ∃ n as, g = Expr.call n as ∧
      n ∈ (["count", "sum", "mean"] : List String)) :
    Compile stmt =
      .error "mixing aggregate and non-aggregate queries is not supported" := by
  obtain ⟨c, hc⟩ := exceptOk_iff.mp hok
  obtain ⟨s, x, t, p, a, fc, oe⟩ := compileFields_ok hc
  have haux : c.AuxiliaryFields.isSome = true := by
    rw [a]
    obtain ⟨f, hf, v, rfl, hv⟩ := hraw
    have hany : (stmt.Fields.any fun f => !isTimeRef f && referencesVar f)
        = true := by
      rw [List.any_eq_true]
      exact ⟨_, hf, by simp [isTimeRef, referencesVar, hv]⟩
    simp [hany]
  have hos : c.OnlySelectors = false := by
    rw [p]
    obtain ⟨g, hg, n, as, rfl, hn⟩ := hagg
    have hall : (stmt.Fields.all fun f => !hasAggregate f) = false := by
      by_contra hcon
      rw [Bool.not_eq_false, List.all_eq_true] at hcon
      have := hcon _ hg
      simp [hasAggregate, hn] at this
    simp [hall]
  obtain ⟨aF, haF⟩ := Option.isSome_iff_exists.mp haux
  rw [Compile_eq hc, linkAuxiliaryFields_mixing haF hos]

/-- Witness for C1 at `SELECT x, sum(y) FROM m`. -/
theorem mixing_aggregate_and_raw_field_errors_witness :
    Compile ⟨[⟨"m"⟩], [.varRef "x", .call "sum" [.varRef "y"]]⟩ =
      .error "mixing aggregate and non-aggregate queries is not supported" :=
  mixing_aggregate_and_raw_field_errors
    ⟨[⟨"m"⟩], [.varRef "x", .call "sum" [.varRef "y"]]⟩
    (by decide)
    ⟨.varRef "x", List.mem_cons_self _ _, "x", rfl, by decide⟩
    ⟨.call "sum" [.varRef "y"],
      List.mem_cons_of_mem _ (List.mem_cons_self _ _), "sum", [.varRef "y"],
      rfl, by decide⟩

/-- Evaluating `compileExpr` on a well-formed selector call: it appends one
`FunctionCall` output edge and leaves every other component alone. -/
theorem compileExpr_selector {c : compiledStatement} {n v : String}
    (hn : n ∈ (["min", "max", "first", "last"] : List String)) :
    compileExpr c (.call n [.varRef v]) =
      .ok ({ c with
        FunctionCalls := c.FunctionCalls ++ [.call n v c.Sources] },
        .call n v c.Sources) := by
  fin_cases hn <;> rfl

/-- A field list made of well-formed selector calls always compiles, without
creating auxiliary fields or touching the top/bottom record, adding one
function call per field. -/
theorem compileFields_selectors :
    ∀ {fields : List Expr} {c : compiledStatement},
    (∀ f ∈ fields, ∃ n v, f = Expr.call n [Expr.varRef v] ∧
      n ∈ (["min", "max", "first", "last"] : List String)) →
    ∃ c', compileFields c fields = .ok c' ∧
      c'.AuxiliaryFields = c.AuxiliaryFields ∧
      c'.TopBottomFunction = c.TopBottomFunction ∧
      c'.FunctionCalls.length = c.FunctionCalls.length + fields.length
  | [], c, _ => ⟨c, rfl, rfl, rfl, rfl⟩
  | f :: rest, c, hall => by
    obtain ⟨n, v, rfl, hn⟩ := hall f (List.mem_cons_self f rest)
    have hrest := fun g hg => hall g (List.mem_cons_of_mem _ hg)
    obtain ⟨c', hc', ha, ht, hl⟩ := compileFields_selectors hrest
    refine ⟨c', ?_, ?_, ?_, ?_⟩
    · unfold compileFields
      simp only [isTimeRef, Bool.false_eq_true, if_false,
        compileExpr_selector hn]
      exact hc'
    · rw [ha]
    · rw [ht]
    · rw [hl]
      simp only [List.length_append, List.length_cons, List.length_nil]
      omega
  termination_by fields => fields

/-- C2: a statement whose non-time fields are two or more well-formed
selector calls and no raw variable references compiles successfully; with
more than one function call plus at least one raw variable reference while
OnlySelectors is still true (no aggregate anywhere), Compile fails with
"mixing multiple selector functions with tags or fields is not supported" —
the multiple-functions rejection triggers only when auxiliary fields
exist. -/
theorem multiple_selectors_need_no_aux_fields :
    (∀ stmt : SelectStatement, 2 ≤ stmt.Fields.length →
      (∀ f ∈ stmt.Fields, ∃ n v, f = Expr.call n [Expr.varRef v] ∧
        n ∈ (["min", "max", "first", "last"] : List String)) →
      ∃ c, Compile stmt = .ok c) ∧
    (∀ (stmt : SelectStatement) ,
      exceptOk (compileFields { newCompiler with Sources := stmt.Sources }
        stmt.Fields) = true →
      (∃ f ∈ stmt.Fields, ∃ v, f = Expr.varRef v ∧ v ≠ "time") →
      (∀ f ∈ stmt.Fields, hasAggregate f = false) →
      2 ≤ (stmt.Fields.map numCalls).sum →
      Compile stmt =
        .error "mixing multiple selector functions with tags or fields is not supported") := by
  constructor
  · intro stmt hlen hsel
    obtain ⟨c', hc', ha, ht, hl⟩ :=
      compileFields_selectors
        (c := { newCompiler with Sources := stmt.Sources }) hsel
    dsimp only at ha ht hl
    have hanil : c'.AuxiliaryFields = none := by
      rw [ha]; rfl
    have hfne : c'.FunctionCalls ≠ [] := by
      have : 0 < c'.FunctionCalls.length := by
        rw [hl]
        simp [newCompiler]
        omega
      exact List.ne_nil_of_length_pos this
    have htb : c'.TopBottomFunction = "" := by
      rw [ht]; rfl
    refine ⟨c', ?_⟩
    rw [Compile_eq hc', linkAuxiliaryFields_noAux hanil hfne]
    show (match validateFields c' with
      | .error e => Except.error e
      | .ok _ => Except.ok c') = Except.ok c'
    rw [validateFields_noTopBottom htb]
  · intro stmt hok hraw hnoagg hcalls
    obtain ⟨c, hc⟩ := exceptOk_iff.mp hok
    obtain ⟨s, x, t, p, a, fc, oe⟩ := compileFields_ok hc
    have haux : c.AuxiliaryFields.isSome = true := by
      rw [a]
      obtain ⟨f, hf, v, rfl, hv⟩ := hraw
      have hany : (stmt.Fields.any fun f => !isTimeRef f && referencesVar f)
          = true := by
        rw [List.any_eq_true]
        exact ⟨_, hf, by simp [isTimeRef, referencesVar, hv]⟩
      simp [hany]
    have hos : c.OnlySelectors = true := by
      rw [p]
      have hall : (stmt.Fields.all fun f => !hasAggregate f) = true := by
        rw [List.all_eq_true]
        intro f hf
        simp [hnoagg f hf]
      simp [hall, newCompiler]
    have hnum : 1 < c.FunctionCalls.length := by
      rw [fc]
      dsimp only [newCompiler]
      omega
    obtain ⟨aF, haF⟩ := Option.isSome_iff_exists.mp haux
    rw [Compile_eq hc, linkAuxiliaryFields_multi haF hos hnum]

/-- Witness for C2 at `SELECT max(x), min(y) FROM m` (successful) and
`SELECT max(x), min(y), z FROM m` (rejected). -/
theorem multiple_selectors_need_no_aux_fields_witness :
    (∃ c, Compile ⟨[⟨"m"⟩],
      [.call "max" [.varRef "x"], .call "min" [.varRef "y"]]⟩ = .ok c) ∧
    Compile ⟨[⟨"m"⟩],
      [.call "max" [.varRef "x"], .call "min" [.varRef "y"], .varRef "z"]⟩ =
      .error "mixing multiple selector functions with tags or fields is not supported" := by
  constructor
  · refine multiple_selectors_need_no_aux_fields.1 _ (by decide) ?_
    intro f hf
    simp only [List.mem_cons, List.not_mem_nil, or_false] at hf
    rcases hf with rfl | rfl
    · exact ⟨"max", "x", rfl, by decide⟩
    · exact ⟨"min", "y", rfl, by decide⟩
  · refine multiple_selectors_need_no_aux_fields.2 _ (by decide) ?_ ?_ (by decide)
    · exact ⟨.varRef "z", by simp, "z", rfl, by decide⟩
    · intro f hf
      simp only [List.mem_cons, List.not_mem_nil, or_false] at hf
      rcases hf with rfl | rfl | rfl <;> decide

/-- C3 (code evidence): the dispatch switch in `compileExpr` omits `top` and
`bottom`, so `top(x, <literal>)` alone does not compile — it fails with the
generic "unimplemented" — and `top(x, <literal>)` combined with another call
fails the same way, never reaching the top/bottom exclusivity error in
`validateFields`. -/
theorem top_call_hits_unimplemented :
    Compile ⟨[⟨"m"⟩], [.call "top" [.varRef "x", .literal]]⟩ =
      .error "unimplemented" ∧
    Compile ⟨[⟨"m"⟩],
      [.call "top" [.varRef "x", .literal], .call "max" [.varRef "y"]]⟩ =
      .error "unimplemented" ∧
    Compile ⟨[⟨"m"⟩], [.call "top" [.varRef "x", .literal], .varRef "z"]⟩ =
      .error "unimplemented" := by
  refine ⟨rfl, rfl, rfl⟩

/-- Every field list consisting solely of bare `time` references leaves the
compiler state untouched. -/
theorem compileFields_allTime : ∀ {fields : List Expr}
    {c : compiledStatement}, (∀ f ∈ fields, f = Expr.varRef "time") →
    compileFields c fields = .ok c
  | [], _, _ => rfl
  | f :: rest, c, h => by
    obtain rfl := h f (List.mem_cons_self f rest)
    unfold compileFields
    simp only [isTimeRef, if_true]
    exact compileFields_allTime fun g hg => h g (List.mem_cons_of_mem _ hg)
  termination_by fields => fields

/-- C4: for every statement whose every field is the bare variable reference
`time` (including a statement with no fields at all), Compile fails with "at
least 1 non-time field must be queried"; and a bare `time` reference is
always skipped by the field loop, generating no node and no output edge
(the loop state is exactly the state of the remaining fields). -/
theorem only_time_fields_rejected :
    (∀ stmt : SelectStatement, (∀ f ∈ stmt.Fields, f = Expr.varRef "time") →
      Compile stmt = .error "at least 1 non-time field must be queried") ∧
    (∀ (c : compiledStatement) (rest : List Expr),
      compileFields c (Expr.varRef "time" :: rest) = compileFields c rest) := by
  constructor
  · intro stmt h
    rw [Compile_eq (compileFields_allTime h),
      linkAuxiliaryFields_empty rfl rfl]
  · intro c rest
    rfl

/-- Witness for C4 at `SELECT time FROM m` and at a statement with no
fields. -/
theorem only_time_fields_rejected_witness :
    Compile ⟨[⟨"m"⟩], [.varRef "time"]⟩ =
      .error "at least 1 non-time field must be queried" ∧
    Compile ⟨[⟨"m"⟩], []⟩ =
      .error "at least 1 non-time field must be queried" :=
  ⟨only_time_fields_rejected.1 _ (by simp),
   only_time_fields_rejected.1 _ (by simp)⟩

/-- C5: `compileFunction` enforces its preconditions — a wrong argument
count fails with an error naming the function and the expected and actual
counts; `count` over a `distinct()` call fails with "unimplemented"; a
single argument that is not a plain variable reference (outside the
count/distinct case) fails with "expected field argument in NAME()". -/
theorem compileFunction_preconditions :
    (∀ (c : compiledStatement) (name : String) (args : List Expr),
      args.length ≠ 1 →
      compileFunction c name args =
        .error ("invalid number of arguments for " ++ name
          ++ ", expected 1, got " ++ toString args.length)) ∧
    (∀ (c : compiledStatement) (dargs : List Expr),
      compileFunction c "count" [.call "distinct" dargs] =
        .error "unimplemented") ∧
    (∀ (c : compiledStatement) (name : String) (arg : Expr),
      (∀ v, arg ≠ .varRef v) →
      (name == "count" && isDistinctCall arg) = false →
      compileFunction c name [arg] =
        .error ("expected field argument in " ++ name ++ "()")) := by
  refine ⟨?_, ?_, ?_⟩
  · intro c name args hlen
    rcases args with _ | ⟨a, _ | ⟨b, rest⟩⟩
    · rfl
    · simp at hlen
    · rfl
  · intro c dargs
    rfl
  · intro c name arg hvar hcond
    cases arg with
    | varRef v => exact absurd rfl (hvar v)
    | call n as =>
      have h1 : compileFunction c name [Expr.call n as] =
          (if (name == "count" && isDistinctCall (Expr.call n as)) = true
            then Except.error "unimplemented"
            else Except.error ("expected field argument in " ++ name ++ "()"))
        := rfl
      rw [h1, hcond]
      simp
    | binary op l r =>
      have h1 : compileFunction c name [Expr.binary op l r] =
          (if (name == "count" && isDistinctCall (Expr.binary op l r)) = true
            then Except.error "unimplemented"
            else Except.error ("expected field argument in " ++ name ++ "()"))
        := rfl
      rw [h1, hcond]
      simp
    | literal =>
      have h1 : compileFunction c name [Expr.literal] =
          (if (name == "count" && isDistinctCall Expr.literal) = true
            then Except.error "unimplemented"
            else Except.error ("expected field argument in " ++ name ++ "()"))
        := rfl
      rw [h1, hcond]
      simp

/-- Witness for C5 at `count()`, `count(distinct(x))` and `sum(max(x))`. -/
theorem compileFunction_preconditions_witness :
    compileFunction newCompiler "count" [] =
      .error "invalid number of arguments for count, expected 1, got 0" ∧
    compileFunction newCompiler "count" [.call "distinct" [.varRef "x"]] =
      .error "unimplemented" ∧
    compileFunction newCompiler "sum" [.call "max" [.varRef "x"]] =
      .error "expected field argument in sum()" := by
  refine ⟨?_, compileFunction_preconditions.2.1 newCompiler [.varRef "x"], ?_⟩
  · rw [compileFunction_preconditions.1 newCompiler "count" [] (by decide)]
    decide
  · rw [compileFunction_preconditions.2.2 newCompiler "sum"
      (.call "max" [.varRef "x"]) (fun v h => by cases h) (by decide)]
    decide

/-- C6: a binary expression with a literal operand on either side fails with
"unimplemented" (no literal folding); a binary expression over two plain
variable references compiles to the output edge of one `BinaryExpr` node
whose two inputs are the two variables' auxiliary-field output edges and
whose operator is the expression's operator. -/
theorem binary_expr_compilation :
    (∀ (c : compiledStatement) (op : String) (lhs rhs : Expr),
      (lhs.isLit || rhs.isLit) = true →
      compileExpr c (.binary op lhs rhs) = .error "unimplemented") ∧
    (∀ (c : compiledStatement) (op : String) (a b : String),
      ∃ c', compileExpr c (.binary op (.varRef a) (.varRef b)) =
        .ok (c', .binary op (.aux a) (.aux b))) := by
  constructor
  · intro c op lhs rhs h
    unfold compileExpr
    rw [h]
    simp
  · intro c op a b
    exact ⟨_, rfl⟩

/-- Witness for C6 at `a + b` and `a + 1`. -/
theorem binary_expr_compilation_witness :
    compileExpr newCompiler (.binary "+" (.varRef "a") .literal) =
      .error "unimplemented" ∧
    (∃ c', compileExpr newCompiler (.binary "+" (.varRef "a") (.varRef "b")) =
      .ok (c', .binary "+" (.aux "a") (.aux "b"))) :=
  ⟨binary_expr_compilation.1 newCompiler "+" (.varRef "a") .literal (by decide),
   binary_expr_compilation.2 newCompiler "+" "a" "b"⟩

/-- Registering a list of edges one by one appends them, in order, to the
plan's targets. -/
theorem foldl_AddTarget : ∀ (es : List OutputEdge) (p : Plan),
    (es.foldl Plan.AddTarget p).targets = p.targets ++ es
  | [], p => by simp
  | e :: rest, p => by
    simp only [List.foldl_cons]
    rw [foldl_AddTarget rest]
    simp [Plan.AddTarget]

/-- C7: for every successfully compiled statement, `Select plan` registers
each retained output edge with the plan exactly once, in field order (the
plan's target list is extended by exactly the list of output edges), returns
that same ordered list — aligned 1:1 with the statement's non-time fields —
and always returns a nil error (`.ok`). -/
theorem select_registers_outputs (stmt : SelectStatement)
    (c : compiledStatement) (p : Plan) (h : Compile stmt = .ok c) :
    (Select c p).1.targets = p.targets ++ c.OutputEdges ∧
    (Select c p).2 = .ok c.OutputEdges ∧
    c.OutputEdges.length =
      (stmt.Fields.filter (fun f => !isTimeRef f)).length := by
  unfold Compile at h
  split at h
  case h_1 => exact absurd h (by simp)
  case h_2 c0 heq0 =>
    split at h
    case h_1 => exact absurd h (by simp)
    case h_2 c1 heq1 =>
      split at h
      case h_1 => exact absurd h (by simp)
      case h_2 u heq2 =>
        simp only [Except.ok.injEq] at h
        subst h
        obtain ⟨s0, x0, t0, p0, a0, fc0, oe0⟩ := compileFields_ok heq0
        obtain ⟨s1, f1, p1, t1, a1, o1⟩ := linkAuxiliaryFields_ok heq1
        refine ⟨foldl_AddTarget _ _, rfl, ?_⟩
        rw [o1, oe0]
        simp [newCompiler]

/-- Witness for C7 at `SELECT x FROM m` against an empty plan. -/
theorem select_registers_outputs_witness :
    (Select ⟨[⟨"m"⟩], [], true, "", some ⟨["x"]⟩, some (.merged [⟨"m"⟩]),
      [.aux "x"]⟩ ⟨[]⟩).1.targets = [] ++ [OutputEdge.aux "x"] ∧
    (Select ⟨[⟨"m"⟩], [], true, "", some ⟨["x"]⟩, some (.merged [⟨"m"⟩]),
      [.aux "x"]⟩ ⟨[]⟩).2 = .ok [OutputEdge.aux "x"] ∧
    ([OutputEdge.aux "x"] : List OutputEdge).length =
      (([Expr.varRef "x"] : List Expr).filter (fun f => !isTimeRef f)).length :=
  select_registers_outputs ⟨[⟨"m"⟩], [.varRef "x"]⟩
    ⟨[⟨"m"⟩], [], true, "", some ⟨["x"]⟩, some (.merged [⟨"m"⟩]), [.aux "x"]⟩
    ⟨[]⟩ (by decide)

/-- The set of function names whose compilation leaves `OnlySelectors`
intact: top/bottom plus the selector list of the metadata switch. -/
def keepSelectorNames : List String :=
  ["top", "bottom", "max", "min", "first", "last", "percentile", "sample"]

/-- C8: `OnlySelectors` starts true, a compiled function call clears it
exactly when its name is outside {top, bottom, max, min, first, last,
percentile, sample}, no operation ever sets it back to true once cleared,
and after a successful `Compile` it is true iff no compiled function was a
true aggregate (count, sum, or mean). -/
theorem onlySelectors_invariant :
    newCompiler.OnlySelectors = true ∧
    (∀ (c : compiledStatement) (name : String) (args : List Expr)
      (c' : compiledStatement) (out : OutputEdge),
      compileFunction c name args = .ok (c', out) →
      c'.OnlySelectors =
        (c.OnlySelectors && decide (name ∈ keepSelectorNames))) ∧
    (∀ (c : compiledStatement) (e : Expr) (c' : compiledStatement)
      (out : OutputEdge), compileExpr c e = .ok (c', out) →
      c.OnlySelectors = false → c'.OnlySelectors = false) ∧
    (∀ (stmt : SelectStatement) (c : compiledStatement),
      Compile stmt = .ok c →
      (c.OnlySelectors = true ↔ ∀ f ∈ stmt.Fields, hasAggregate f = false)) := by
  refine ⟨rfl, ?_, ?_, ?_⟩
  · intro c name args c' out h
    obtain ⟨-, -, -, -, -, hsel, -⟩ := compileFunction_ok h
    rw [hsel]
    congr 1
    rw [Bool.eq_iff_iff]
    simp [selectorNames, keepSelectorNames]
    tauto
  · intro c e c' out h hfalse
    obtain ⟨-, -, -, -, hp, -, -⟩ := compileExpr_ok h
    rw [hp, hfalse]
    rfl
  · intro stmt c h
    unfold Compile at h
    split at h
    case h_1 => exact absurd h (by simp)
    case h_2 c0 heq0 =>
      split at h
      case h_1 => exact absurd h (by simp)
      case h_2 c1 heq1 =>
        split at h
        case h_1 => exact absurd h (by simp)
        case h_2 u heq2 =>
          simp only [Except.ok.injEq] at h
          subst h
          obtain ⟨-, -, -, hp0, -, -, -⟩ := compileFields_ok heq0
          obtain ⟨-, -, hp1, -, -, -⟩ := linkAuxiliaryFields_ok heq1
          rw [hp1, hp0]
          simp [newCompiler, List.all_eq_true]

/-- Witness for C8: a compiled `sum` call clears the flag as the membership
test predicts, a cleared flag stays cleared across a later variable
reference, and a compiled `SELECT sum(x) FROM m` reports the aggregate. -/
theorem onlySelectors_invariant_witness :
    ((⟨[], [.call "sum" "x" []], false, "", none, none, []⟩ :
      compiledStatement).OnlySelectors =
      (newCompiler.OnlySelectors && decide ("sum" ∈ keepSelectorNames))) ∧
    ((⟨[], [], false, "", some ⟨["y"]⟩, none, []⟩ :
      compiledStatement).OnlySelectors = false) ∧
    ((⟨[⟨"m"⟩], [.call "sum" "x" [⟨"m"⟩]], false, "", none, none,
      [.call "sum" "x" [⟨"m"⟩]]⟩ : compiledStatement).OnlySelectors = true ↔
      ∀ f ∈ [Expr.call "sum" [Expr.varRef "x"]], hasAggregate f = false) :=
  ⟨onlySelectors_invariant.2.1 newCompiler "sum" [.varRef "x"]
     ⟨[], [.call "sum" "x" []], false, "", none, none, []⟩
     (.call "sum" "x" []) (by decide),
   onlySelectors_invariant.2.2.1 ⟨[], [], false, "", none, none, []⟩
     (.varRef "y") ⟨[], [], false, "", some ⟨["y"]⟩, none, []⟩ (.aux "y")
     (by decide) (by decide),
   onlySelectors_invariant.2.2.2 ⟨[⟨"m"⟩], [.call "sum" [.varRef "x"]]⟩ _
     (by decide)⟩

/-- C9: the dispatcher never routes `top` or `bottom` to `compileFunction`
(both fail with "unimplemented"), so for every statement that passes the
per-field stage `TopBottomFunction` remains the empty string and
`validateFields` never returns an error; in particular every statement
compiled through `Compile` has an empty `TopBottomFunction`. -/
theorem topBottom_tracking_unreachable :
    (∀ (c : compiledStatement) (args : List Expr),
      compileExpr c (.call "top" args) = .error "unimplemented" ∧
      compileExpr c (.call "bottom" args) = .error "unimplemented") ∧
    (∀ (stmt : SelectStatement) (c : compiledStatement),
      compileFields { newCompiler with Sources := stmt.Sources }
        stmt.Fields = .ok c →
      c.TopBottomFunction = "" ∧ validateFields c = .ok ()) ∧
    (∀ (stmt : SelectStatement) (c : compiledStatement),
      Compile stmt = .ok c → c.TopBottomFunction = "") := by
  refine ⟨fun c args => ⟨rfl, rfl⟩, ?_, ?_⟩
  · intro stmt c h
    obtain ⟨-, -, ht, -, -, -, -⟩ := compileFields_ok h
    have htb : c.TopBottomFunction = "" := ht
    exact ⟨htb, validateFields_noTopBottom htb⟩
  · intro stmt c h
    unfold Compile at h
    split at h
    case h_1 => exact absurd h (by simp)
    case h_2 c0 heq0 =>
      split at h
      case h_1 => exact absurd h (by simp)
      case h_2 c1 heq1 =>
        split at h
        case h_1 => exact absurd h (by simp)
        case h_2 u heq2 =>
          simp only [Except.ok.injEq] at h
          subst h
          obtain ⟨-, -, ht0, -, -, -, -⟩ := compileFields_ok heq0
          obtain ⟨-, -, -, ht1, -, -⟩ := linkAuxiliaryFields_ok heq1
          rw [ht1]
          exact ht0

/-- Witness for C9 at `SELECT max(x) FROM m`. -/
theorem topBottom_tracking_unreachable_witness :
    ((⟨[⟨"m"⟩], [.call "max" "x" [⟨"m"⟩]], true, "", none, none,
      [.call "max" "x" [⟨"m"⟩]]⟩ :
      compiledStatement).TopBottomFunction = "" ∧
    validateFields ⟨[⟨"m"⟩], [.call "max" "x" [⟨"m"⟩]], true, "", none, none,
      [.call "max" "x" [⟨"m"⟩]]⟩ = .ok ()) :=
  topBottom_tracking_unreachable.2.1 ⟨[⟨"m"⟩], [.call "max" [.varRef "x"]]⟩
    _ (by decide)

/-- C10: for every supported function other than count (min, max, sum,
first, last, mean) whose single argument is itself a function call —
including `distinct()` — `compileFunction` fails with "expected field
argument in NAME()" rather than "unimplemented": the distinct-argument
special case applies only when the outer function is exactly count. -/
theorem non_count_call_argument_is_field_error (c : compiledStatement)
    (name : String)
    (hname : name ∈ (["min", "max", "sum", "first", "last", "mean"] :
      List String)) (cname : String) (cargs : List Expr) :
    compileFunction c name [.call cname cargs] =
      .error ("expected field argument in " ++ name ++ "()") := by
  have hnc : (name == "count") = false := by
    fin_cases hname <;> decide
  have h1 : compileFunction c name [Expr.call cname cargs] =
      (if (name == "count" && isDistinctCall (Expr.call cname cargs)) = true
        then Except.error "unimplemented"
        else Except.error ("expected field argument in " ++ name ++ "()"))
    := rfl
  rw [h1, hnc]
  simp

/-- Witness for C10 at `min(distinct(x))`. -/
theorem non_count_call_argument_is_field_error_witness :
    compileFunction newCompiler "min" [.call "distinct" [.varRef "x"]] =
      .error "expected field argument in min()" := by
  rw [non_count_call_argument_is_field_error newCompiler "min" (by decide)
    "distinct" [.varRef "x"]]
  decide

end InfluxQuery
